import Mathlib

/-!
Verification of the signaling-hub room registry and handlers of the meet
repository. The server state (`RoomManager`, `Room`, `Participant`) and the
operations `createRoom`, `joinRoom`, `leaveRoom` together with the socket
handlers (`handleJoinRoom`, the WebRTC relay handlers and the chat handler)
are embedded as pure Lean functions over explicit state. JavaScript `Map`
objects are modelled as association lists that preserve insertion order,
`Map.get`/`has`/`set`/`delete` as `mget`/`mhas`/`mset`/`mdel`; `Date.now()` is
an explicit `now : Nat` argument; a thrown `Error(msg)` is `Except.error msg`.
-/

namespace Meet

/-- Lookup in a JS `Map` modelled as an insertion-ordered association list. -/
def mget {α : Type} : List (String × α) → String → Option α
  | [], _ => none
  | kv :: rest, k => if kv.1 = k then some kv.2 else mget rest k

/-- `Map.has`. -/
def mhas {α : Type} : List (String × α) → String → Bool
  | [], _ => false
  | kv :: rest, k => kv.1 = k || mhas rest k

/-- `Map.set`: replaces the value in place when the key is present (keeping
its position in insertion order), appends at the end otherwise. -/
def mset {α : Type} : List (String × α) → String → α → List (String × α)
  | [], k, v => [(k, v)]
  | kv :: rest, k, v => if kv.1 = k then (k, v) :: rest else kv :: mset rest k v

/-- `Map.delete`: removes the entry with the given key. -/
def mdel {α : Type} : List (String × α) → String → List (String × α)
  | [], _ => []
  | kv :: rest, k => if kv.1 = k then rest else kv :: mdel rest k

/-- The ASCII uppercase letters with their lowercase forms. -/
def lowercasePairs : List (Char × Char) :=
  [('A', 'a'), ('B', 'b'), ('C', 'c'), ('D', 'd'), ('E', 'e'), ('F', 'f'), ('G', 'g'),
   ('H', 'h'), ('I', 'i'), ('J', 'j'), ('K', 'k'), ('L', 'l'), ('M', 'm'), ('N', 'n'),
   ('O', 'o'), ('P', 'p'), ('Q', 'q'), ('R', 'r'), ('S', 's'), ('T', 't'), ('U', 'u'),
   ('V', 'v'), ('W', 'w'), ('X', 'x'), ('Y', 'y'), ('Z', 'z')]

/-- ASCII model of JS `String.prototype.toLowerCase` on one character: an
uppercase letter maps to its lowercase form, everything else is unchanged. -/
def jsLowerChar (c : Char) : Char :=
  ((lowercasePairs.find? fun p => p.1 = c).map Prod.snd).getD c

/-- JS `String.prototype.toLowerCase` (ASCII model). -/
def jsToLower (s : String) : String := String.mk (s.data.map jsLowerChar)

/-- JS `String.prototype.trim` on the underlying character list: drop
whitespace from the front, then from the back. -/
def jsTrimList (l : List Char) : List Char :=
  ((l.dropWhile Char.isWhitespace).reverse.dropWhile Char.isWhitespace).reverse

/-- JS `String.prototype.trim`. -/
def jsTrim (s : String) : String := String.mk (jsTrimList s.data)

/-- JS `String.prototype.slice(0, n)`. -/
def jsSlice (s : String) (n : Nat) : String := String.mk (s.data.take n)

/-- The room-code normalization `roomCode.trim().toLowerCase()` performed by
`handleJoinRoom`. -/
def normalizeCode (s : String) : String := jsToLower (jsTrim s)

/-- Participant record (src/server/src/types/index.ts). -/
structure Participant where
  id : String
  peerId : String
  name : String
  isHost : Bool
  joinedAt : Nat
deriving DecidableEq

/-- Room state (src/server/src/types/index.ts). `participants` is a JS `Map`
keyed by socket id, in insertion order. -/
structure Room where
  code : String
  hostId : String
  participants : List (String × Participant)
  createdAt : Nat
  lastActivity : Nat
deriving DecidableEq

/-- The room registry (class RoomManager): the `rooms` map plus the
`MAX_PARTICIPANTS` configuration. -/
structure RoomManager where
  rooms : List (String × Room)
  maxParticipants : Nat
deriving DecidableEq

/-- RoomManager.createRoom: fails when the code is taken, else installs a
one-member room whose host is the creator. -/
def createRoom (rm : RoomManager) (roomCode hostSocketId hostPeerId hostName : String)
    (now : Nat) : Except String (RoomManager × Room) :=
  if mhas rm.rooms roomCode then
    Except.error ("Room " ++ roomCode ++ " already exists")
  else
    let host : Participant :=
      { id := hostSocketId, peerId := hostPeerId, name := hostName, isHost := true,
        joinedAt := now }
    let room : Room :=
      { code := roomCode, hostId := hostSocketId, participants := [(hostSocketId, host)],
        createdAt := now, lastActivity := now }
    Except.ok ({ rm with rooms := mset rm.rooms roomCode room }, room)

/-- RoomManager.joinRoom: looks the room up, rejects when full, returns the
existing record when the socket id is already present, otherwise appends a
fresh non-host participant (the display name falls back to a guest name
derived from the socket id). -/
def joinRoom (rm : RoomManager) (roomCode socketId peerId name : String) (now : Nat) :
    Except String (RoomManager × Room × Participant) :=
  match mget rm.rooms roomCode with
  | none => Except.error "ROOM_NOT_FOUND"
  | some room =>
    if rm.maxParticipants ≤ room.participants.length then
      Except.error "ROOM_FULL"
    else
      match mget room.participants socketId with
      | some existing => Except.ok (rm, room, existing)
      | none =>
        let participant : Participant :=
          { id := socketId, peerId := peerId,
            name := if jsTrim name = "" then "Guest " ++ jsSlice socketId 6 else jsTrim name,
            isHost := false, joinedAt := now }
        let room2 : Room :=
          { room with
            participants := mset room.participants socketId participant,
            lastActivity := now }
        Except.ok ({ rm with rooms := mset rm.rooms roomCode room2 }, room2, participant)

/-- What RoomManager.leaveRoom returns. -/
structure LeaveResult where
  room : Option Room
  wasHost : Bool
  newHostId : Option String
deriving DecidableEq

/-- RoomManager.leaveRoom: removes the participant; when the departing
participant was host and the room stays non-empty, promotes the first
remaining participant in insertion order; deletes a room left empty. -/
def leaveRoom (rm : RoomManager) (roomCode socketId : String) (now : Nat) :
    RoomManager × LeaveResult :=
  match mget rm.rooms roomCode with
  | none => (rm, { room := none, wasHost := false, newHostId := none })
  | some room =>
    match mget room.participants socketId with
    | none => (rm, { room := none, wasHost := false, newHostId := none })
    | some participant =>
      let wasHost := participant.isHost
      let remaining := mdel room.participants socketId
      if wasHost then
        match remaining with
        | [] =>
          ({ rm with rooms := mdel rm.rooms roomCode },
           { room := none, wasHost := wasHost, newHostId := none })
        | (k, q) :: rest =>
          let newHost : Participant := { q with isHost := true }
          let room2 : Room :=
            { room with
              participants := (k, newHost) :: rest,
              hostId := newHost.id,
              lastActivity := now }
          ({ rm with rooms := mset rm.rooms roomCode room2 },
           { room := some room2, wasHost := wasHost, newHostId := some newHost.id })
      else
        match remaining with
        | [] =>
          ({ rm with rooms := mdel rm.rooms roomCode },
           { room := none, wasHost := wasHost, newHostId := none })
        | _ :: _ =>
          let room2 : Room := { room with participants := remaining, lastActivity := now }
          ({ rm with rooms := mset rm.rooms roomCode room2 },
           { room := some room2, wasHost := wasHost, newHostId := none })

/-- One registry operation, for stating invariants over operation sequences. -/
inductive Op where
  | create (code sid pid name : String) (now : Nat)
  | join (code sid pid name : String) (now : Nat)
  | leave (code sid : String) (now : Nat)
deriving DecidableEq

/-- Apply one operation to the registry; a thrown error leaves it unchanged
(the JS methods throw before mutating anything). -/
def applyOp (rm : RoomManager) : Op → RoomManager
  | Op.create code sid pid name now =>
    match createRoom rm code sid pid name now with
    | Except.ok res => res.1
    | Except.error _ => rm
  | Op.join code sid pid name now =>
    match joinRoom rm code sid pid name now with
    | Except.ok res => res.1
    | Except.error _ => rm
  | Op.leave code sid now => (leaveRoom rm code sid now).1

/-- Run a sequence of registry operations. -/
def run (rm : RoomManager) (ops : List Op) : RoomManager :=
  ops.foldl applyOp rm

/-- The per-connection state a TypedSocket carries: the socket id and the
optional room binding. -/
structure SocketState where
  id : String
  roomCode : Option String
  participantId : Option String
deriving DecidableEq

/-- The participant view sent to clients (ParticipantInfo). -/
structure ParticipantInfo where
  id : String
  peerId : String
  name : String
  isHost : Bool
deriving DecidableEq

/-- Projection of a participant record to its client view. -/
def participantInfoOf (p : Participant) : ParticipantInfo :=
  { id := p.id, peerId := p.peerId, name := p.name, isHost := p.isHost }

/-- RoomManager.getParticipantsList. -/
def getParticipantsList (rm : RoomManager) (roomCode : String) : List ParticipantInfo :=
  match mget rm.rooms roomCode with
  | none => []
  | some room => room.participants.map fun kv => participantInfoOf kv.2

/-- Server-to-client events emitted by the join handler. -/
inductive ServerEvent where
  | roomJoined (roomCode : String) (isHost : Bool) (participants : List ParticipantInfo)
  | roomError (code : String) (message : String)
  | participantJoined (participant : ParticipantInfo)
  | participantsUpdate (participants : List ParticipantInfo)
deriving DecidableEq

/-- Where an event goes: `socket.emit` reaches the sender only; `socket.to(room).emit`
reaches every member of the socket.io room except the sender. -/
inductive Emission where
  | toSender (event : ServerEvent)
  | toRoom (roomCode : String) (event : ServerEvent)
deriving DecidableEq

/-- Everything handleJoinRoom produces: the registry and socket afterwards and
the emitted events in order. -/
structure JoinOutcome where
  manager : RoomManager
  socket : SocketState
  events : List Emission
deriving DecidableEq

/-- The join-room payload ({roomCode, peerId, name, isHost?}). The optional
`isHost` mirrors the `isHost?: boolean` field. -/
structure JoinRoomData where
  roomCode : String
  peerId : String
  name : String
  isHost : Option Bool
deriving DecidableEq

/-- handleJoinRoom (src/server/src/handlers/joinHandler.ts): validates the
payload, normalizes the room code, creates or joins per `isHost`, and emits
`room-joined` to the sender plus `participant-joined` / `participants-update`
to the rest of the room; a thrown error is mapped to a `room-error` whose code
is `ROOM_NOT_FOUND`, `ROOM_FULL` or `SERVER_ERROR` by the error message. -/
def handleJoinRoom (socket : SocketState) (rm : RoomManager) (data : JoinRoomData)
    (now : Nat) : JoinOutcome :=
  if data.roomCode = "" then
    { manager := rm, socket := socket,
      events := [Emission.toSender (ServerEvent.roomError "INVALID_ROOM_CODE" "Room code is required")] }
  else if data.peerId = "" then
    { manager := rm, socket := socket,
      events := [Emission.toSender (ServerEvent.roomError "PEER_ID_REQUIRED" "Peer ID is required")] }
  else if jsTrim data.name = "" then
    { manager := rm, socket := socket,
      events := [Emission.toSender (ServerEvent.roomError "NAME_REQUIRED" "Name is required")] }
  else
    let normalizedCode := normalizeCode data.roomCode
    match socket.roomCode with
    | some _ =>
      { manager := rm, socket := socket,
        events := [Emission.toSender (ServerEvent.roomError "ALREADY_IN_ROOM" "Already in a room. Leave first.")] }
    | none =>
      let isHost := data.isHost.getD false
      let attempt : Except String (RoomManager × Room × Participant) :=
        if isHost then
          (createRoom rm normalizedCode socket.id data.peerId (jsTrim data.name) now).map
            fun res =>
              (res.1, res.2,
               (mget res.2.participants socket.id).getD
                 { id := "", peerId := "", name := "", isHost := false, joinedAt := 0 })
        else
          joinRoom rm normalizedCode socket.id data.peerId (jsTrim data.name) now
      match attempt with
      | Except.error e =>
        if e = "ROOM_NOT_FOUND" then
          { manager := rm, socket := socket,
            events := [Emission.toSender (ServerEvent.roomError "ROOM_NOT_FOUND" "Room not found")] }
        else if e = "ROOM_FULL" then
          { manager := rm, socket := socket,
            events := [Emission.toSender (ServerEvent.roomError "ROOM_FULL" "Room is full")] }
        else
          { manager := rm, socket := socket,
            events := [Emission.toSender (ServerEvent.roomError "SERVER_ERROR" "Failed to join room")] }
      | Except.ok (rm2, _, participant) =>
        let socket2 : SocketState :=
          { socket with roomCode := some normalizedCode, participantId := some socket.id }
        let listAfter := getParticipantsList rm2 normalizedCode
        { manager := rm2, socket := socket2,
          events :=
            [Emission.toSender (ServerEvent.roomJoined normalizedCode participant.isHost listAfter)] ++
            (if isHost then []
             else [Emission.toRoom normalizedCode
                     (ServerEvent.participantJoined (participantInfoOf participant))]) ++
            [Emission.toRoom normalizedCode (ServerEvent.participantsUpdate listAfter)] }

/-- Inbound webrtc-offer payload. `fromField` stands for an extra `from`
property a client may have put in the payload; the TypeScript handler's
parameter type does not even name it, and the handler never reads it. -/
structure OfferData (α : Type) where
  toPeer : String
  offer : α
  fromField : Option String
deriving DecidableEq

/-- The relayed webrtc-offer message, with `from` stamped by the server
(field named `fromPeer` because `from` is a Lean keyword). -/
structure OfferOut (α : Type) where
  toPeer : String
  fromPeer : String
  offer : α
deriving DecidableEq

/-- handleWebRTCOffer: resolves the target by peer id inside the sender's room
and relays the offer to that socket id with `from := sender.peerId`; returns
`none` when the message is dropped. -/
def handleWebRTCOffer {α : Type} (socket : SocketState) (rm : RoomManager)
    (data : OfferData α) : Option (String × OfferOut α) :=
  match socket.roomCode with
  | none => none
  | some code =>
    match mget rm.rooms code with
    | none => none
    | some room =>
      match mget room.participants socket.id with
      | none => none
      | some sender =>
        match room.participants.find? (fun kv => kv.2.peerId = data.toPeer) with
        | none => none
        | some target =>
          some (target.2.id, { toPeer := data.toPeer, fromPeer := sender.peerId, offer := data.offer })

/-- Inbound webrtc-answer payload (with the same possible forged `from`). -/
structure AnswerData (α : Type) where
  toPeer : String
  answer : α
  fromField : Option String
deriving DecidableEq

/-- The relayed webrtc-answer message. -/
structure AnswerOut (α : Type) where
  toPeer : String
  fromPeer : String
  answer : α
deriving DecidableEq

/-- handleWebRTCAnswer: same shape as the offer handler. -/
def handleWebRTCAnswer {α : Type} (socket : SocketState) (rm : RoomManager)
    (data : AnswerData α) : Option (String × AnswerOut α) :=
  match socket.roomCode with
  | none => none
  | some code =>
    match mget rm.rooms code with
    | none => none
    | some room =>
      match mget room.participants socket.id with
      | none => none
      | some sender =>
        match room.participants.find? (fun kv => kv.2.peerId = data.toPeer) with
        | none => none
        | some target =>
          some (target.2.id, { toPeer := data.toPeer, fromPeer := sender.peerId, answer := data.answer })

/-- Inbound webrtc-ice-candidate payload (with the same possible forged `from`). -/
structure IceCandidateData (α : Type) where
  toPeer : String
  candidate : α
  fromField : Option String
deriving DecidableEq

/-- The relayed webrtc-ice-candidate message. -/
structure IceCandidateOut (α : Type) where
  toPeer : String
  fromPeer : String
  candidate : α
deriving DecidableEq

/-- handleWebRTCIceCandidate: same shape as the offer handler. -/
def handleWebRTCIceCandidate {α : Type} (socket : SocketState) (rm : RoomManager)
    (data : IceCandidateData α) : Option (String × IceCandidateOut α) :=
  match socket.roomCode with
  | none => none
  | some code =>
    match mget rm.rooms code with
    | none => none
    | some room =>
      match mget room.participants socket.id with
      | none => none
      | some sender =>
        match room.participants.find? (fun kv => kv.2.peerId = data.toPeer) with
        | none => none
        | some target =>
          some (target.2.id,
                { toPeer := data.toPeer, fromPeer := sender.peerId, candidate := data.candidate })

/-- The chat-message event broadcast by handleChatMessage ({from, fromName,
message, timestamp}; `from` carries the sender's connection id). -/
structure ChatMessageOut where
  fromId : String
  fromName : String
  message : String
  timestamp : Nat
deriving DecidableEq

/-- handleChatMessage: drops the message unless the socket is in a room, the
sender is a participant and the trimmed text is non-empty; otherwise
broadcasts to the room (minus the sender) the trimmed text cut to 1000
characters, with the sender's stored name and id attached. -/
def handleChatMessage (socket : SocketState) (rm : RoomManager) (message : String)
    (now : Nat) : Option (String × ChatMessageOut) :=
  match socket.roomCode with
  | none => none
  | some code =>
    match mget rm.rooms code with
    | none => none
    | some room =>
      match mget room.participants socket.id with
      | none => none
      | some participant =>
        if jsTrim message = "" then none
        else
          some (code,
                { fromId := participant.id, fromName := participant.name,
                  message := jsSlice (jsTrim message) 1000, timestamp := now })

/-- The recipients of a `socket.to(roomCode)` broadcast: every member of the
room except the emitting socket. -/
def broadcastRecipients (room : Room) (senderId : String) : List String :=
  (room.participants.map fun kv => kv.1).filter fun i => i ≠ senderId

/-- Lexicographic strict order on character lists by code point. -/
def strLtList : List Char → List Char → Bool
  | [], [] => false
  | [], _ :: _ => true
  | _ :: _, [] => false
  | a :: as, b :: bs =>
    if a.toNat < b.toNat then true
    else if b.toNat < a.toNat then false
    else strLtList as bs

/-- Lexicographic strict order on strings ("smaller connection id"). -/
def strLt (a b : String) : Bool := strLtList a.data b.data

/-- The host-selection rule as the specification words it: the oldest-joined
remaining participant (by joinedAt), ties broken by the smallest connection
id. Written from the spec for comparison with the promotion `leaveRoom`
actually performs. -/
def specPromotedHost (parts : List (String × Participant)) : Option Participant :=
  parts.foldl
    (fun best kv =>
      match best with
      | none => some kv.2
      | some b =>
        if kv.2.joinedAt < b.joinedAt ∨ (kv.2.joinedAt = b.joinedAt ∧ strLt kv.2.id b.id) then
          some kv.2
        else
          some b)
    none

/-- Peer ids are pairwise distinct inside one room. -/
def peerIdsNodup (room : Room) : Prop :=
  (room.participants.map fun kv => kv.2.peerId).Nodup

/-- The room invariant of the spec: a room that exists is non-empty, exactly
one of its participants is flagged host, and that participant's id is the
room's `hostId`. -/
def roomInv (room : Room) : Prop :=
  0 < room.participants.length ∧
  room.participants.countP (fun kv => kv.2.isHost) = 1 ∧
  ∀ kv ∈ room.participants, kv.2.isHost = true → kv.2.id = room.hostId

/-- Every room of the registry satisfies the room invariant. -/
def regInv (rm : RoomManager) : Prop := ∀ kv ∈ rm.rooms, roomInv kv.2

/-! ### Concrete states used by witnesses and counterexamples -/

/-- An empty registry with the default cap of 50. -/
def rmEmpty50 : RoomManager := { rooms := [], maxParticipants := 50 }

/-- Alice creates room1, Bob joins. -/
def opsW1 : List Op :=
  [Op.create "room1" "sockA" "peerA" "Alice" 0, Op.join "room1" "sockB" "peerB" "Bob" 1]

/-- The room those two operations build. -/
def roomW1 : Room :=
  { code := "room1", hostId := "sockA",
    participants :=
      [("sockA", { id := "sockA", peerId := "peerA", name := "Alice", isHost := true, joinedAt := 0 }),
       ("sockB", { id := "sockB", peerId := "peerB", name := "Bob", isHost := false, joinedAt := 1 })],
    createdAt := 0, lastActivity := 1 }

/-- Host a, then c joins, then b joins, with c and b sharing joinedAt 1. -/
def opsC2 : List Op :=
  [Op.create "r" "a" "pa" "A" 0, Op.join "r" "c" "pc" "C" 1, Op.join "r" "b" "pb" "B" 1]

/-- The registry those operations build. -/
def rmC2 : RoomManager := run { rooms := [], maxParticipants := 50 } opsC2

/-- The room of `rmC2`. -/
def roomC2 : Room :=
  { code := "r", hostId := "a",
    participants :=
      [("a", { id := "a", peerId := "pa", name := "A", isHost := true, joinedAt := 0 }),
       ("c", { id := "c", peerId := "pc", name := "C", isHost := false, joinedAt := 1 }),
       ("b", { id := "b", peerId := "pb", name := "B", isHost := false, joinedAt := 1 })],
    createdAt := 0, lastActivity := 1 }

/-- The host of `roomC2`. -/
def partA : Participant := { id := "a", peerId := "pa", name := "A", isHost := true, joinedAt := 0 }

/-- A one-member registry whose cap is 1, so the room is full. -/
def rmC4 : RoomManager := run { rooms := [], maxParticipants := 1 } [Op.create "r" "a" "pa" "A" 0]

/-- The (full) room of `rmC4`. -/
def roomC4 : Room :=
  { code := "r", hostId := "a", participants := [("a", partA)], createdAt := 0, lastActivity := 0 }

/-- The same one-member room under the default cap of 50. -/
def rmC4b : RoomManager := run rmEmpty50 [Op.create "r" "a" "pa" "A" 0]

/-- Host a and guest b in room r, cap 50. -/
def rmC3 : RoomManager :=
  run rmEmpty50 [Op.create "r" "a" "pa" "A" 0, Op.join "r" "b" "pb" "B" 1]

/-- The room of `rmC3`. -/
def roomC3 : Room :=
  { code := "r", hostId := "a",
    participants :=
      [("a", { id := "a", peerId := "pa", name := "A", isHost := true, joinedAt := 0 }),
       ("b", { id := "b", peerId := "pb", name := "B", isHost := false, joinedAt := 1 })],
    createdAt := 0, lastActivity := 1 }

/-- Bob's participant record in `rmC3`. -/
def partB : Participant := { id := "b", peerId := "pb", name := "B", isHost := false, joinedAt := 1 }

/-- Bob's connection, bound to room r. -/
def socketB : SocketState := { id := "b", roomCode := some "r", participantId := some "b" }

/-- A fresh connection not yet in any room. -/
def socketFresh : SocketState := { id := "s1", roomCode := none, participantId := none }

/-- Two participants who joined with the same peer id p (the registry does not
reject the collision). -/
def opsC7 : List Op := [Op.create "r" "a" "p" "A" 0, Op.join "r" "b" "p" "B" 1]

/-- The room with the duplicated peer id. -/
def roomC7 : Room :=
  { code := "r", hostId := "a",
    participants :=
      [("a", { id := "a", peerId := "p", name := "A", isHost := true, joinedAt := 0 }),
       ("b", { id := "b", peerId := "p", name := "B", isHost := false, joinedAt := 1 })],
    createdAt := 0, lastActivity := 1 }

/-- The room of `rmC3` after the host left at time 2 (b promoted). -/
def roomC3AfterLeave : Room :=
  { code := "r", hostId := "b",
    participants :=
      [("b", { id := "b", peerId := "pb", name := "B", isHost := true, joinedAt := 1 })],
    createdAt := 0, lastActivity := 2 }

/-- A registry holding room abc, for the duplicate-create counterexample. -/
def rmC10 : RoomManager := run rmEmpty50 [Op.create "abc" "a" "pa" "A" 0]

/-- Participant c of `roomC2`. -/
def partC : Participant := { id := "c", peerId := "pc", name := "C", isHost := false, joinedAt := 1 }

/-- Participant b of `roomC2`. -/
def partBc2 : Participant :=
  { id := "b", peerId := "pb", name := "B", isHost := false, joinedAt := 1 }

/-- An offer payload carrying a forged `from` field. -/
def offerD1 : OfferData Nat := { toPeer := "pa", offer := 7, fromField := some "forged" }

/-- The same offer payload without the forged field. -/
def offerD2 : OfferData Nat := { toPeer := "pa", offer := 7, fromField := none }

/-- The relayed offer the server emits for `offerD1`. -/
def offerMsgW : OfferOut Nat := { toPeer := "pa", fromPeer := "pb", offer := 7 }

/-- A join request whose room code has stray case and whitespace. -/
def dataW8 : JoinRoomData :=
  { roomCode := " AB ", peerId := "p1", name := "Ann", isHost := some true }

/-- A join request whose room code is whitespace only. -/
def dataC8 : JoinRoomData :=
  { roomCode := " ", peerId := "p1", name := "Ann", isHost := some true }

/-- A host join request naming the already-existing room abc. -/
def dataW10 : JoinRoomData :=
  { roomCode := "ABC ", peerId := "p2", name := "Bob", isHost := some true }

deriving instance DecidableEq for Except

instance (room : Room) : Decidable (peerIdsNodup room) := by
  unfold peerIdsNodup
  infer_instance

/-! ### Association-list lemmas -/

theorem mget_mem {α : Type} {m : List (String × α)} {k : String} {v : α}
    (h : mget m k = some v) : (k, v) ∈ m := by
  induction m with
  | nil => simp [mget] at h
  | cons kv rest ih =>
    by_cases hk : kv.1 = k
    · rw [mget, if_pos hk] at h
      obtain rfl : kv.2 = v := Option.some.inj h
      subst hk
      exact List.mem_cons_self _ _
    · rw [mget, if_neg hk] at h
      exact List.mem_cons_of_mem _ (ih h)

theorem mem_mset {α : Type} {m : List (String × α)} {k : String} {v : α} {a : String × α}
    (h : a ∈ mset m k v) : a = (k, v) ∨ a ∈ m := by
  induction m with
  | nil =>
    rw [mset] at h
    simp at h
    exact Or.inl h
  | cons kv rest ih =>
    by_cases hk : kv.1 = k
    · rw [mset, if_pos hk] at h
      rcases List.mem_cons.mp h with h1 | h1
      · exact Or.inl h1
      · exact Or.inr (List.mem_cons_of_mem _ h1)
    · rw [mset, if_neg hk] at h
      rcases List.mem_cons.mp h with h1 | h1
      · exact Or.inr (h1 ▸ List.mem_cons_self _ _)
      · rcases ih h1 with h2 | h2
        · exact Or.inl h2
        · exact Or.inr (List.mem_cons_of_mem _ h2)

theorem mget_mset_self {α : Type} (m : List (String × α)) (k : String) (v : α) :
    mget (mset m k v) k = some v := by
  induction m with
  | nil => simp [mset, mget]
  | cons kv rest ih =>
    by_cases hk : kv.1 = k
    · rw [mset, if_pos hk, mget, if_pos rfl]
    · rw [mset, if_neg hk, mget, if_neg hk]
      exact ih

theorem mset_of_mget_none {α : Type} {m : List (String × α)} {k : String} (v : α)
    (h : mget m k = none) : mset m k v = m ++ [(k, v)] := by
  induction m with
  | nil => rfl
  | cons kv rest ih =>
    by_cases hk : kv.1 = k
    · rw [mget, if_pos hk] at h
      exact absurd h (by simp)
    · rw [mget, if_neg hk] at h
      rw [mset, if_neg hk, ih h, List.cons_append]

theorem mdel_sublist {α : Type} (m : List (String × α)) (k : String) :
    List.Sublist (mdel m k) m := by
  induction m with
  | nil => exact List.Sublist.refl _
  | cons kv rest ih =>
    by_cases hk : kv.1 = k
    · rw [mdel, if_pos hk]
      exact List.sublist_cons_self _ _
    · rw [mdel, if_neg hk]
      exact List.Sublist.cons₂ _ ih

theorem mem_mdel {α : Type} {m : List (String × α)} {k : String} {a : String × α}
    (h : a ∈ mdel m k) : a ∈ m :=
  (mdel_sublist m k).mem h

theorem mget_split {α : Type} {m : List (String × α)} {k : String} {v : α}
    (h : mget m k = some v) :
    ∃ l₁ l₂, m = l₁ ++ (k, v) :: l₂ ∧ mdel m k = l₁ ++ l₂ ∧ ∀ kv ∈ l₁, kv.1 ≠ k := by
  induction m with
  | nil => simp [mget] at h
  | cons kv rest ih =>
    by_cases hk : kv.1 = k
    · rw [mget, if_pos hk] at h
      obtain rfl : kv.2 = v := Option.some.inj h
      refine ⟨[], rest, ?_, ?_, by simp⟩
      · simp [← hk]
      · rw [mdel, if_pos hk]
        rfl
    · rw [mget, if_neg hk] at h
      obtain ⟨l₁, l₂, hm, hd, hfree⟩ := ih h
      refine ⟨kv :: l₁, l₂, by rw [List.cons_append, ← hm], ?_, ?_⟩
      · rw [mdel, if_neg hk, hd, List.cons_append]
      · intro x hx
        rcases List.mem_cons.mp hx with rfl | hx
        · exact hk
        · exact hfree x hx

theorem mget_eq_none_of_forall {α : Type} {m : List (String × α)} {k : String}
    (h : ∀ kv ∈ m, kv.1 ≠ k) : mget m k = none := by
  induction m with
  | nil => rfl
  | cons kv rest ih =>
    rw [mget, if_neg (h kv (List.mem_cons_self _ _))]
    exact ih fun x hx => h x (List.mem_cons_of_mem _ hx)

theorem mget_none_forall {α : Type} {m : List (String × α)} {k : String}
    (h : mget m k = none) : ∀ kv ∈ m, kv.1 ≠ k := by
  induction m with
  | nil => simp
  | cons kv rest ih =>
    by_cases hk : kv.1 = k
    · rw [mget, if_pos hk] at h
      exact absurd h (by simp)
    · rw [mget, if_neg hk] at h
      intro x hx
      rcases List.mem_cons.mp hx with rfl | hx
      · exact hk
      · exact ih h x hx

theorem mget_mdel_self {α : Type} {m : List (String × α)} {k : String}
    (h : (m.map Prod.fst).Nodup) : mget (mdel m k) k = none := by
  induction m with
  | nil => rfl
  | cons kv rest ih =>
    rw [List.map_cons, List.nodup_cons] at h
    by_cases hk : kv.1 = k
    · rw [mdel, if_pos hk]
      refine mget_eq_none_of_forall fun x hx => ?_
      intro hxk
      exact h.1 (hk ▸ hxk ▸ List.mem_map_of_mem Prod.fst hx)
    · rw [mdel, if_neg hk, mget, if_neg hk]
      exact ih h.2

/-! ### String normalization lemmas -/

theorem jsLowerChar_isWhitespace (c : Char) :
    (jsLowerChar c).isWhitespace = c.isWhitespace := by
  cases hf : lowercasePairs.find? fun p => p.1 = c with
  | none => simp [jsLowerChar, hf]
  | some p =>
    have hmem : p ∈ lowercasePairs := List.mem_of_find?_eq_some hf
    have hpc : p.1 = c := by
      have := List.find?_some hf
      exact of_decide_eq_true this
    subst hpc
    rw [show jsLowerChar p.1 = p.2 by simp [jsLowerChar, hf]]
    fin_cases hmem <;> decide

theorem jsLowerChar_idem (c : Char) : jsLowerChar (jsLowerChar c) = jsLowerChar c := by
  cases hf : lowercasePairs.find? fun p => p.1 = c with
  | none => simp [jsLowerChar, hf]
  | some p =>
    have hmem : p ∈ lowercasePairs := List.mem_of_find?_eq_some hf
    rw [show jsLowerChar c = p.2 by simp [jsLowerChar, hf]]
    fin_cases hmem <;> decide

theorem head?_dropWhile_false {α : Type} {p : α → Bool} :
    ∀ (l : List α) (a : α), (l.dropWhile p).head? = some a → p a = false := by
  intro l
  induction l with
  | nil => intro a h; simp [List.dropWhile] at h
  | cons x xs ih =>
    intro a h
    by_cases hx : p x
    · rw [List.dropWhile_cons_of_pos hx] at h
      exact ih a h
    · rw [List.dropWhile_cons_of_neg hx] at h
      obtain rfl : x = a := Option.some.inj h
      exact Bool.not_eq_true _ ▸ Bool.of_not_eq_true hx

theorem dropWhile_eq_self_of_head? {α : Type} {p : α → Bool} {l : List α}
    (h : ∀ a, l.head? = some a → p a = false) : l.dropWhile p = l := by
  cases l with
  | nil => rfl
  | cons x xs => exact List.dropWhile_cons_of_neg (by simp [h x rfl])

theorem head?_of_prefix {α : Type} {l m : List α} {a : α} (hp : l <+: m)
    (h : l.head? = some a) : m.head? = some a := by
  obtain ⟨t, rfl⟩ := hp
  cases l with
  | nil => simp at h
  | cons x xs => simpa using h

theorem jsTrimList_eq (l : List Char) :
    jsTrimList l = List.rdropWhile Char.isWhitespace (l.dropWhile Char.isWhitespace) := rfl

theorem dropWhile_jsTrimList (l : List Char) :
    (jsTrimList l).dropWhile Char.isWhitespace = jsTrimList l := by
  refine dropWhile_eq_self_of_head? fun a ha => ?_
  refine head?_dropWhile_false l a ?_
  exact head?_of_prefix (jsTrimList_eq l ▸ List.rdropWhile_prefix _ _) ha

theorem jsTrimList_idem (l : List Char) : jsTrimList (jsTrimList l) = jsTrimList l := by
  rw [jsTrimList_eq (jsTrimList l), dropWhile_jsTrimList, jsTrimList_eq l,
    List.rdropWhile_idempotent]

theorem map_jsLowerChar_dropWhile (l : List Char) :
    (l.map jsLowerChar).dropWhile Char.isWhitespace =
      (l.dropWhile Char.isWhitespace).map jsLowerChar := by
  rw [List.dropWhile_map]
  have hws : (Char.isWhitespace ∘ jsLowerChar) = Char.isWhitespace := by
    funext c
    exact jsLowerChar_isWhitespace c
  rw [hws]

theorem map_jsLowerChar_jsTrimList (l : List Char) :
    jsTrimList (l.map jsLowerChar) = (jsTrimList l).map jsLowerChar := by
  unfold jsTrimList
  rw [map_jsLowerChar_dropWhile, ← List.map_reverse, map_jsLowerChar_dropWhile,
    ← List.map_reverse]

theorem normalizeCode_idem (s : String) : normalizeCode (normalizeCode s) = normalizeCode s := by
  have hmaps : (jsLowerChar ∘ jsLowerChar) = jsLowerChar := by
    funext c
    exact jsLowerChar_idem c
  show String.mk ((jsTrimList ((jsTrimList s.data).map jsLowerChar)).map jsLowerChar) =
      String.mk ((jsTrimList s.data).map jsLowerChar)
  rw [map_jsLowerChar_jsTrimList, jsTrimList_idem, List.map_map, hmaps]

theorem jsTrim_empty : jsTrim "" = "" := rfl

theorem normalizeCode_ne_empty {s : String} (h : jsTrim s ≠ "") : normalizeCode s ≠ "" := by
  intro hcon
  apply h
  have hdata : ((jsTrimList s.data).map jsLowerChar) = [] := congrArg String.data hcon
  have hnil : jsTrimList s.data = [] := List.map_eq_nil_iff.mp hdata
  show String.mk (jsTrimList s.data) = ""
  rw [hnil]

theorem ne_empty_of_jsTrim_ne_empty {s : String} (h : jsTrim s ≠ "") : s ≠ "" := by
  intro hcon
  exact h (hcon ▸ jsTrim_empty)

theorem roomExistsMsg_ne_notFound (s : String) :
    ("Room " ++ s ++ " already exists") ≠ "ROOM_NOT_FOUND" := by
  intro h
  have hl := congrArg String.length h
  rw [String.length_append, String.length_append] at hl
  have h1 : ("Room " : String).length = 5 := rfl
  have h2 : (" already exists" : String).length = 15 := rfl
  have h3 : ("ROOM_NOT_FOUND" : String).length = 14 := rfl
  omega

theorem roomExistsMsg_ne_full (s : String) :
    ("Room " ++ s ++ " already exists") ≠ "ROOM_FULL" := by
  intro h
  have hl := congrArg String.length h
  rw [String.length_append, String.length_append] at hl
  have h1 : ("Room " : String).length = 5 := rfl
  have h2 : (" already exists" : String).length = 15 := rfl
  have h3 : ("ROOM_FULL" : String).length = 9 := rfl
  omega

/-! ### The room invariant is preserved by every registry operation -/

theorem regInv_applyOp {rm : RoomManager} (op : Op) (h : regInv rm) : regInv (applyOp rm op) := by
  cases op with
  | create code sid pid nm t =>
    cases hhas : mhas rm.rooms code with
    | true =>
      simp only [applyOp, createRoom, hhas, if_true]
      exact h
    | false =>
      simp only [applyOp, createRoom, hhas, Bool.false_eq_true, if_false]
      intro kv hkv
      rcases mem_mset hkv with rfl | hold
      · refine ⟨by simp, by simp [List.countP_cons], ?_⟩
        intro e he _
        simp only [List.mem_singleton] at he
        subst he
        rfl
      · exact h kv hold
  | join code sid pid nm t =>
    cases hroom : mget rm.rooms code with
    | none =>
      simp only [applyOp, joinRoom, hroom]
      exact h
    | some room =>
      by_cases hfull : rm.maxParticipants ≤ room.participants.length
      · simp only [applyOp, joinRoom, hroom, if_pos hfull]
        exact h
      · cases hp : mget room.participants sid with
        | some ex =>
          simp only [applyOp, joinRoom, hroom, if_neg hfull, hp]
          exact h
        | none =>
          simp only [applyOp, joinRoom, hroom, if_neg hfull, hp]
          intro kv hkv
          rcases mem_mset hkv with rfl | hold
          · obtain ⟨hlen, hcnt, hids⟩ := h (code, room) (mget_mem hroom)
            have happ := mset_of_mget_none
              { id := sid, peerId := pid,
                name := if jsTrim nm = "" then "Guest " ++ jsSlice sid 6 else jsTrim nm,
                isHost := false, joinedAt := t } hp
            refine ⟨?_, ?_, ?_⟩
            · simp only [happ]
              simp
            · simp only [happ, List.countP_append, hcnt, List.countP_cons]
              simp
            · intro e he hh
              simp only [happ] at he
              rcases List.mem_append.mp he with he | he
              · exact hids e he hh
              · simp only [List.mem_singleton] at he
                subst he
                simp at hh
          · exact h kv hold
  | leave code sid t =>
    cases hroom : mget rm.rooms code with
    | none =>
      simp only [applyOp, leaveRoom, hroom]
      exact h
    | some room =>
      cases hp : mget room.participants sid with
      | none =>
        simp only [applyOp, leaveRoom, hroom, hp]
        exact h
      | some part =>
        obtain ⟨hlen, hcnt, hids⟩ := h (code, room) (mget_mem hroom)
        obtain ⟨l₁, l₂, hm, hdel, hfree⟩ := mget_split hp
        cases hwas : part.isHost with
        | true =>
          have hc12 : List.countP (fun kv => kv.2.isHost) l₁ = 0 ∧
              List.countP (fun kv => kv.2.isHost) l₂ = 0 := by
            rw [hm, List.countP_append, List.countP_cons] at hcnt
            simp only [hwas, if_true] at hcnt
            omega
          cases hrem : mdel room.participants sid with
          | nil =>
            simp only [applyOp, leaveRoom, hroom, hp, hwas, if_true, hrem]
            intro kv hkv
            exact h kv (mem_mdel hkv)
          | cons hd tl =>
            obtain ⟨k1, q⟩ := hd
            have hrem0 : List.countP (fun kv => kv.2.isHost) ((k1, q) :: tl) = 0 := by
              rw [← hrem, hdel, List.countP_append]
              omega
            have hq : q.isHost = false := by
              rw [List.countP_cons] at hrem0
              cases hq' : q.isHost with
              | false => rfl
              | true => simp [hq'] at hrem0
            have htl0 : List.countP (fun kv => kv.2.isHost) tl = 0 := by
              rw [List.countP_cons] at hrem0
              omega
            simp only [applyOp, leaveRoom, hroom, hp, hwas, if_true, hrem]
            intro kv hkv
            rcases mem_mset hkv with rfl | hold
            · refine ⟨by simp, ?_, ?_⟩
              · rw [List.countP_cons]
                simp [htl0]
              · intro e he hh
                rcases List.mem_cons.mp he with rfl | he
                · rfl
                · exact absurd hh (by
                    have := List.countP_eq_zero.mp htl0 e he
                    simpa using this)
            · exact h kv hold
        | false =>
          have hcnt' : List.countP (fun kv => kv.2.isHost) (mdel room.participants sid) = 1 := by
            rw [hdel, List.countP_append]
            rw [hm, List.countP_append, List.countP_cons] at hcnt
            simp only [hwas, Bool.false_eq_true, if_false] at hcnt
            omega
          cases hrem : mdel room.participants sid with
          | nil =>
            simp only [applyOp, leaveRoom, hroom, hp, hwas, Bool.false_eq_true, if_false, hrem]
            intro kv hkv
            exact h kv (mem_mdel hkv)
          | cons hd tl =>
            simp only [applyOp, leaveRoom, hroom, hp, hwas, Bool.false_eq_true, if_false, hrem]
            intro kv hkv
            rcases mem_mset hkv with rfl | hold
            · refine ⟨by simp, ?_, ?_⟩
              · rw [← hrem]
                exact hcnt'
              · intro e he hh
                have hmem : e ∈ room.participants := mem_mdel (hrem ▸ he)
                exact hids e hmem hh
            · exact h kv hold

theorem regInv_run {rm : RoomManager} (h : regInv rm) (ops : List Op) :
    regInv (run rm ops) := by
  induction ops generalizing rm with
  | nil => exact h
  | cons op rest ih => exact ih (regInv_applyOp op h)

/-! ### Claim theorems -/

/-- C1: after every sequence of createRoom, joinRoom and leaveRoom operations
on an initially empty registry, every room that exists has at least one
participant, exactly one participant flagged host, and that participant's id
equals the room's hostId. -/
theorem c1_room_invariant (maxP : Nat) (ops : List Op) (kv : String × Room)
    (hkv : kv ∈ (run { rooms := [], maxParticipants := maxP } ops).rooms) :
    0 < kv.2.participants.length ∧
    kv.2.participants.countP (fun e => e.2.isHost) = 1 ∧
    ∀ e ∈ kv.2.participants, e.2.isHost = true → e.2.id = kv.2.hostId :=
  regInv_run (fun kv2 hkv2 => absurd hkv2 (by simp)) ops kv hkv

/-- C1 witness: the invariant instantiated on the concrete room built by a
create followed by a join. -/
theorem c1_room_invariant_witness :
    0 < roomW1.participants.length ∧
    roomW1.participants.countP (fun e => e.2.isHost) = 1 ∧
    ∀ e ∈ roomW1.participants, e.2.isHost = true → e.2.id = roomW1.hostId :=
  c1_room_invariant 50 opsW1 ("room1", roomW1) (by decide)

/-- C2 counterexample: leaveRoom does not promote the oldest-joined remaining
participant with smallest-id tie-break; in `rmC2` participants c and b share
joinedAt 1, the spec's rule picks b, yet the code promotes c (the first in
insertion order). -/
theorem c2_promotion_cex :
    ¬ (∀ (rm : RoomManager) (code sid : String) (t : Nat) (room : Room) (p : Participant),
        mget rm.rooms code = some room →
        mget room.participants sid = some p →
        p.isHost = true →
        mdel room.participants sid ≠ [] →
        (leaveRoom rm code sid t).2.newHostId =
          (specPromotedHost (mdel room.participants sid)).map Participant.id) := by
  intro hclaim
  have := hclaim rmC2 "r" "a" 2 roomC2 partA (by decide) (by decide) (by decide) (by decide)
  exact absurd this (by decide)

/-- C2 amended: when the departing host leaves a non-empty room, the code
promotes the first remaining participant in insertion (join) order and updates
hostId to that participant's id; when joinedAt is nondecreasing along
insertion order (as with a monotone clock) that participant has minimal
joinedAt, but a joinedAt tie is broken by insertion order, not by smallest
connection id. -/
theorem c2_promotion_insertion_order (rm : RoomManager) (code sid : String) (t : Nat)
    (room : Room) (p : Participant) (k : String) (q : Participant)
    (rest : List (String × Participant))
    (hroom : mget rm.rooms code = some room)
    (hp : mget room.participants sid = some p)
    (hhost : p.isHost = true)
    (hrem : mdel room.participants sid = (k, q) :: rest)
    (hsorted : ((k, q) :: rest).Pairwise fun a b => a.2.joinedAt ≤ b.2.joinedAt) :
    (leaveRoom rm code sid t).2.newHostId = some q.id ∧
    (leaveRoom rm code sid t).2.room = some
      { room with
        participants := (k, { q with isHost := true }) :: rest,
        hostId := q.id,
        lastActivity := t } ∧
    ∀ e ∈ (k, q) :: rest, q.joinedAt ≤ e.2.joinedAt := by
  refine ⟨?_, ?_, ?_⟩
  · simp [leaveRoom, hroom, hp, hhost, hrem]
  · simp [leaveRoom, hroom, hp, hhost, hrem]
  · intro e he
    rcases List.mem_cons.mp he with rfl | he
    · exact le_refl _
    · exact (List.pairwise_cons.mp hsorted).1 e he

/-- C2 witness: the host of `rmC2` leaves; c, first in insertion order, is
promoted, and c's joinedAt is minimal among the remainers. -/
theorem c2_promotion_insertion_order_witness :
    (leaveRoom rmC2 "r" "a" 2).2.newHostId = some partC.id ∧
    (leaveRoom rmC2 "r" "a" 2).2.room = some
      { roomC2 with
        participants := [("c", { partC with isHost := true }), ("b", partBc2)],
        hostId := partC.id,
        lastActivity := 2 } ∧
    ∀ e ∈ [("c", partC), ("b", partBc2)], partC.joinedAt ≤ e.2.joinedAt :=
  c2_promotion_insertion_order rmC2 "r" "a" 2 roomC2 partA "c" partC [("b", partBc2)]
    (by decide) (by decide) (by decide) (by decide) (by decide)

/-- C3: every relayed webrtc-offer, webrtc-answer and webrtc-ice-candidate
carries `from` equal to the sender's stored peerId, and the relayed output is
identical for any two inbound payloads that differ only in the extra `from`
field a client may have supplied (two-run noninterference in the forged
field). -/
theorem c3_relay_from_unforgeable (α : Type) (socket : SocketState) (rm : RoomManager)
    (code : String) (room : Room) (sender : Participant)
    (hcode : socket.roomCode = some code)
    (hroom : mget rm.rooms code = some room)
    (hsender : mget room.participants socket.id = some sender) :
    (∀ (d : OfferData α) (tid : String) (msg : OfferOut α),
        handleWebRTCOffer socket rm d = some (tid, msg) → msg.fromPeer = sender.peerId) ∧
    (∀ d₁ d₂ : OfferData α, d₁.toPeer = d₂.toPeer → d₁.offer = d₂.offer →
        handleWebRTCOffer socket rm d₁ = handleWebRTCOffer socket rm d₂) ∧
    (∀ (d : AnswerData α) (tid : String) (msg : AnswerOut α),
        handleWebRTCAnswer socket rm d = some (tid, msg) → msg.fromPeer = sender.peerId) ∧
    (∀ d₁ d₂ : AnswerData α, d₁.toPeer = d₂.toPeer → d₁.answer = d₂.answer →
        handleWebRTCAnswer socket rm d₁ = handleWebRTCAnswer socket rm d₂) ∧
    (∀ (d : IceCandidateData α) (tid : String) (msg : IceCandidateOut α),
        handleWebRTCIceCandidate socket rm d = some (tid, msg) → msg.fromPeer = sender.peerId) ∧
    (∀ d₁ d₂ : IceCandidateData α, d₁.toPeer = d₂.toPeer → d₁.candidate = d₂.candidate →
        handleWebRTCIceCandidate socket rm d₁ = handleWebRTCIceCandidate socket rm d₂) := by
  refine ⟨?_, ?_, ?_, ?_, ?_, ?_⟩
  · intro d tid msg hmsg
    simp only [handleWebRTCOffer, hcode, hroom, hsender] at hmsg
    cases hf : room.participants.find? (fun kv => kv.2.peerId = d.toPeer) with
    | none => rw [hf] at hmsg; exact absurd hmsg (by simp)
    | some target =>
      rw [hf] at hmsg
      have hpair := Option.some.inj hmsg
      injection hpair with h1 h2
      rw [← h2]
  · intro d₁ d₂ hto hpl
    obtain ⟨t1, o1, f1⟩ := d₁
    obtain ⟨t2, o2, f2⟩ := d₂
    simp only at hto hpl
    subst hto
    subst hpl
    rfl
  · intro d tid msg hmsg
    simp only [handleWebRTCAnswer, hcode, hroom, hsender] at hmsg
    cases hf : room.participants.find? (fun kv => kv.2.peerId = d.toPeer) with
    | none => rw [hf] at hmsg; exact absurd hmsg (by simp)
    | some target =>
      rw [hf] at hmsg
      have hpair := Option.some.inj hmsg
      injection hpair with h1 h2
      rw [← h2]
  · intro d₁ d₂ hto hpl
    obtain ⟨t1, o1, f1⟩ := d₁
    obtain ⟨t2, o2, f2⟩ := d₂
    simp only at hto hpl
    subst hto
    subst hpl
    rfl
  · intro d tid msg hmsg
    simp only [handleWebRTCIceCandidate, hcode, hroom, hsender] at hmsg
    cases hf : room.participants.find? (fun kv => kv.2.peerId = d.toPeer) with
    | none => rw [hf] at hmsg; exact absurd hmsg (by simp)
    | some target =>
      rw [hf] at hmsg
      have hpair := Option.some.inj hmsg
      injection hpair with h1 h2
      rw [← h2]
  · intro d₁ d₂ hto hpl
    obtain ⟨t1, o1, f1⟩ := d₁
    obtain ⟨t2, o2, f2⟩ := d₂
    simp only at hto hpl
    subst hto
    subst hpl
    rfl

/-- C3 witness: Bob's offer to Alice is relayed with `from = "pb"` (Bob's
stored peer id), and forging a `from` field changes nothing. -/
theorem c3_relay_from_unforgeable_witness :
    offerMsgW.fromPeer = partB.peerId ∧
    handleWebRTCOffer socketB rmC3 offerD1 = handleWebRTCOffer socketB rmC3 offerD2 :=
  ⟨(c3_relay_from_unforgeable Nat socketB rmC3 "r" roomC3 partB rfl (by decide) (by decide)).1
      offerD1 "a" offerMsgW (by decide),
   (c3_relay_from_unforgeable Nat socketB rmC3 "r" roomC3 partB rfl (by decide) (by decide)).2.1
      offerD1 offerD2 rfl rfl⟩

/-- C4 counterexample: joinRoom is not idempotent at the cap: with
maxParticipants = 1, re-joining with the host's own connection id fails with
ROOM_FULL instead of returning the existing record, because the full check
precedes the membership check. -/
theorem c4_idempotent_join_cex :
    ¬ (∀ (rm : RoomManager) (code sid pid nm : String) (t : Nat) (room : Room) (p : Participant),
        mget rm.rooms code = some room →
        mget room.participants sid = some p →
        joinRoom rm code sid pid nm t = Except.ok (rm, room, p)) := by
  intro hclaim
  have := hclaim rmC4 "r" "a" "px" "X" 5 roomC4 partA (by decide) (by decide)
  exact absurd this (by decide)

/-- C4 amended: joinRoom with a connection id already present is idempotent —
returns the existing record and leaves registry and room unchanged — provided
the room is below the participant cap; at the cap the same call fails with
ROOM_FULL because the full check runs first. -/
theorem c4_join_idempotent_below_cap (rm : RoomManager) (code sid pid nm : String) (t : Nat)
    (room : Room) (p : Participant)
    (hroom : mget rm.rooms code = some room)
    (hlt : room.participants.length < rm.maxParticipants)
    (hp : mget room.participants sid = some p) :
    joinRoom rm code sid pid nm t = Except.ok (rm, room, p) := by
  simp only [joinRoom, hroom, if_neg (Nat.not_le.mpr hlt), hp]

/-- C4 witness: under the default cap the host's duplicate join returns the
existing record unchanged. -/
theorem c4_join_idempotent_below_cap_witness :
    joinRoom rmC4b "r" "a" "zz" "Z" 7 = Except.ok (rmC4b, roomC4, partA) :=
  c4_join_idempotent_below_cap rmC4b "r" "a" "zz" "Z" 7 roomC4 partA
    (by decide) (by decide) (by decide)

/-- C5: for an existing room and a connection id not yet present, joinRoom
fails with ROOM_FULL exactly when the room already holds at least
maxParticipants members; below the cap it succeeds and grows the room by one;
and a failed join leaves the registry unchanged. -/
theorem c5_room_full_boundary (rm : RoomManager) (code sid pid nm : String) (t : Nat)
    (room : Room)
    (hroom : mget rm.rooms code = some room)
    (hp : mget room.participants sid = none) :
    ((joinRoom rm code sid pid nm t = Except.error "ROOM_FULL") ↔
      rm.maxParticipants ≤ room.participants.length) ∧
    (room.participants.length + 1 = rm.maxParticipants →
      ∃ rm2 room2 p, joinRoom rm code sid pid nm t = Except.ok (rm2, room2, p) ∧
        room2.participants.length = room.participants.length + 1) ∧
    (∀ e, joinRoom rm code sid pid nm t = Except.error e →
      run rm [Op.join code sid pid nm t] = rm) := by
  by_cases hfull : rm.maxParticipants ≤ room.participants.length
  · have herr : joinRoom rm code sid pid nm t = Except.error "ROOM_FULL" := by
      simp only [joinRoom, hroom, if_pos hfull]
    refine ⟨⟨fun _ => hfull, fun _ => herr⟩, fun hex => absurd hex (by omega), fun e he => ?_⟩
    simp only [run, List.foldl, applyOp, herr]
  · have hok : joinRoom rm code sid pid nm t = Except.ok
        ({ rm with
            rooms := mset rm.rooms code
              { room with
                participants := mset room.participants sid
                  { id := sid, peerId := pid,
                    name := if jsTrim nm = "" then "Guest " ++ jsSlice sid 6 else jsTrim nm,
                    isHost := false, joinedAt := t },
                lastActivity := t } },
          { room with
            participants := mset room.participants sid
              { id := sid, peerId := pid,
                name := if jsTrim nm = "" then "Guest " ++ jsSlice sid 6 else jsTrim nm,
                isHost := false, joinedAt := t },
            lastActivity := t },
          { id := sid, peerId := pid,
            name := if jsTrim nm = "" then "Guest " ++ jsSlice sid 6 else jsTrim nm,
            isHost := false, joinedAt := t }) := by
      simp only [joinRoom, hroom, if_neg hfull, hp]
    refine ⟨⟨fun hcon => absurd hcon (by simp [hok]), fun hf => absurd hf hfull⟩,
      fun _ => ⟨_, _, _, hok, ?_⟩, fun e he => absurd he (by simp [hok])⟩
    show (mset room.participants sid _).length = room.participants.length + 1
    rw [mset_of_mget_none _ hp, List.length_append]
    rfl

/-- C5 witness: in the one-member room under cap 50, a fresh join is not
ROOM_FULL, a hypothetical cap of 2 boundary instantiation holds vacuously, and
failed joins leave the registry fixed. -/
theorem c5_room_full_boundary_witness :
    ((joinRoom rmC4b "r" "b" "pb" "B" 1 = Except.error "ROOM_FULL") ↔
      rmC4b.maxParticipants ≤ roomC4.participants.length) ∧
    (roomC4.participants.length + 1 = rmC4b.maxParticipants →
      ∃ rm2 room2 p, joinRoom rmC4b "r" "b" "pb" "B" 1 = Except.ok (rm2, room2, p) ∧
        room2.participants.length = roomC4.participants.length + 1) ∧
    (∀ e, joinRoom rmC4b "r" "b" "pb" "B" 1 = Except.error e →
      run rmC4b [Op.join "r" "b" "pb" "B" 1] = rmC4b) :=
  c5_room_full_boundary rmC4b "r" "b" "pb" "B" 1 roomC4 (by decide) (by decide)

/-- C6: a chat message from a room participant is dropped when empty after
trimming; otherwise the handler broadcasts the trimmed message truncated to at
most 1000 characters to the sender's room, with the sender's stored name
attached, and the sender is not among the broadcast recipients. -/
theorem c6_chat_broadcast (socket : SocketState) (rm : RoomManager) (code : String)
    (room : Room) (participant : Participant) (msg : String) (now : Nat)
    (hcode : socket.roomCode = some code)
    (hroom : mget rm.rooms code = some room)
    (hp : mget room.participants socket.id = some participant) :
    (jsTrim msg = "" → handleChatMessage socket rm msg now = none) ∧
    (jsTrim msg ≠ "" →
      handleChatMessage socket rm msg now =
        some (code,
          { fromId := participant.id, fromName := participant.name,
            message := jsSlice (jsTrim msg) 1000, timestamp := now }) ∧
      (jsSlice (jsTrim msg) 1000).data.length ≤ 1000 ∧
      socket.id ∉ broadcastRecipients room socket.id) := by
  constructor
  · intro he
    simp only [handleChatMessage, hcode, hroom, hp, he, if_pos]
  · intro hne
    refine ⟨?_, ?_, ?_⟩
    · simp only [handleChatMessage, hcode, hroom, hp, if_neg hne]
    · exact List.length_take_le 1000 (jsTrim msg).data
    · intro hcon
      have := (List.mem_filter.mp hcon).2
      simp at this

/-- C6 witness: Bob's padded "  hello  " reaches the room as "hello" with his
stored name, and Bob is not a recipient. -/
theorem c6_chat_broadcast_witness :
    (jsTrim "  hello  " = "" → handleChatMessage socketB rmC3 "  hello  " 9 = none) ∧
    (jsTrim "  hello  " ≠ "" →
      handleChatMessage socketB rmC3 "  hello  " 9 =
        some ("r",
          { fromId := partB.id, fromName := partB.name,
            message := jsSlice (jsTrim "  hello  ") 1000, timestamp := 9 }) ∧
      (jsSlice (jsTrim "  hello  ") 1000).data.length ≤ 1000 ∧
      socketB.id ∉ broadcastRecipients roomC3 socketB.id) :=
  c6_chat_broadcast socketB rmC3 "r" roomC3 partB "  hello  " 9 rfl (by decide) (by decide)

/-- C7 counterexample: peer-id uniqueness inside a room is not an invariant: a
join whose peer id is already taken is accepted, so the reachable room built
by `opsC7` holds two participants with peer id p. -/
theorem c7_peer_unique_cex :
    ¬ (∀ (maxP : Nat) (ops : List Op) (kv : String × Room),
        kv ∈ (run { rooms := [], maxParticipants := maxP } ops).rooms → peerIdsNodup kv.2) := by
  intro hclaim
  have := hclaim 50 opsC7 ("r", roomC7) (by decide)
  exact absurd this (by decide)

/-- C7 amended: joinRoom does not enforce peer-id uniqueness — a join whose
peer id already exists in the room succeeds and duplicates it. Uniqueness is
preserved by leaveRoom and createRoom always, and by joinRoom exactly when the
joining peer id is not already present in the target room. -/
theorem c7_peer_uniqueness_per_op (rm : RoomManager)
    (h : ∀ kv ∈ rm.rooms, peerIdsNodup kv.2) :
    (∀ (code sid : String) (t : Nat),
      ∀ kv ∈ (leaveRoom rm code sid t).1.rooms, peerIdsNodup kv.2) ∧
    (∀ (code sid pid nm : String) (t : Nat),
      (∀ room, mget rm.rooms code = some room →
        pid ∉ room.participants.map fun kv => kv.2.peerId) →
      ∀ kv ∈ (applyOp rm (Op.join code sid pid nm t)).rooms, peerIdsNodup kv.2) ∧
    (∀ (code sid pid nm : String) (t : Nat),
      ∀ kv ∈ (applyOp rm (Op.create code sid pid nm t)).rooms, peerIdsNodup kv.2) := by
  refine ⟨?_, ?_, ?_⟩
  · intro code sid t kv hkv
    cases hroom : mget rm.rooms code with
    | none =>
      rw [leaveRoom, hroom] at hkv
      exact h kv hkv
    | some room =>
      cases hp : mget room.participants sid with
      | none =>
        rw [leaveRoom, hroom] at hkv
        simp only [hp] at hkv
        exact h kv hkv
      | some part =>
        have hnd : peerIdsNodup room := h (code, room) (mget_mem hroom)
        have hsubdel : List.Sublist (mdel room.participants sid) room.participants :=
          mdel_sublist _ _
        cases hwas : part.isHost with
        | true =>
          cases hrem : mdel room.participants sid with
          | nil =>
            simp only [leaveRoom, hroom, hp, hwas, if_true, hrem] at hkv
            exact h kv (mem_mdel hkv)
          | cons hd tl =>
            obtain ⟨k1, q⟩ := hd
            simp only [leaveRoom, hroom, hp, hwas, if_true, hrem] at hkv
            rcases mem_mset hkv with rfl | hold
            · show ((((k1, { q with isHost := true }) :: tl).map fun kv => kv.2.peerId)).Nodup
              have hrsub : List.Sublist ((k1, q) :: tl) room.participants := hrem ▸ hsubdel
              exact hnd.sublist (hrsub.map fun kv => kv.2.peerId)
            · exact h kv hold
        | false =>
          cases hrem : mdel room.participants sid with
          | nil =>
            simp only [leaveRoom, hroom, hp, hwas, Bool.false_eq_true, if_false, hrem] at hkv
            exact h kv (mem_mdel hkv)
          | cons hd tl =>
            simp only [leaveRoom, hroom, hp, hwas, Bool.false_eq_true, if_false, hrem] at hkv
            rcases mem_mset hkv with rfl | hold
            · show (((hd :: tl).map fun kv => kv.2.peerId)).Nodup
              have hrsub : List.Sublist (hd :: tl) room.participants := hrem ▸ hsubdel
              exact hnd.sublist (hrsub.map fun kv => kv.2.peerId)
            · exact h kv hold
  · intro code sid pid nm t hfresh kv hkv
    cases hroom : mget rm.rooms code with
    | none =>
      simp only [applyOp, joinRoom, hroom] at hkv
      exact h kv hkv
    | some room =>
      by_cases hfull : rm.maxParticipants ≤ room.participants.length
      · simp only [applyOp, joinRoom, hroom, if_pos hfull] at hkv
        exact h kv hkv
      · cases hp : mget room.participants sid with
        | some ex =>
          simp only [applyOp, joinRoom, hroom, if_neg hfull, hp] at hkv
          exact h kv hkv
        | none =>
          simp only [applyOp, joinRoom, hroom, if_neg hfull, hp] at hkv
          rcases mem_mset hkv with rfl | hold
          · show ((((mset room.participants sid
              { id := sid, peerId := pid,
                name := if jsTrim nm = "" then "Guest " ++ jsSlice sid 6 else jsTrim nm,
                isHost := false, joinedAt := t }).map fun kv => kv.2.peerId)).Nodup)
            rw [mset_of_mget_none _ hp, List.map_append]
            refine List.Nodup.append (h (code, room) (mget_mem hroom)) (by simp) ?_
            intro x hx hxmem
            simp only [List.map_cons, List.map_nil, List.mem_singleton] at hxmem
            subst hxmem
            exact hfresh room hroom hx
          · exact h kv hold
  · intro code sid pid nm t kv hkv
    cases hhas : mhas rm.rooms code with
    | true =>
      simp only [applyOp, createRoom, hhas, if_true] at hkv
      exact h kv hkv
    | false =>
      simp only [applyOp, createRoom, hhas, Bool.false_eq_true, if_false] at hkv
      rcases mem_mset hkv with rfl | hold
      · simp [peerIdsNodup]
      · exact h kv hold

/-- C7 witness: after the host leaves the duplicate-free room `rmC3`, the
surviving room still has pairwise distinct peer ids. -/
theorem c7_peer_uniqueness_per_op_witness : peerIdsNodup roomC3AfterLeave :=
  (c7_peer_uniqueness_per_op rmC3 (by decide)).1 "r" "a" 2 ("r", roomC3AfterLeave) (by decide)

/-- C8 counterexample: handleJoinRoom on a whitespace-only room code is not
equivalent to handling its normalized form: " " passes validation and creates
the room with the empty code, while "" is rejected with INVALID_ROOM_CODE. -/
theorem c8_normalization_cex :
    ¬ (∀ (socket : SocketState) (rm : RoomManager) (data : JoinRoomData) (now : Nat),
        handleJoinRoom socket rm data now =
          handleJoinRoom socket rm { data with roomCode := normalizeCode data.roomCode } now) := by
  intro hclaim
  have := hclaim socketFresh rmEmpty50 dataC8 0
  exact absurd this (by decide)

/-- C8 amended: for every join-room payload whose room code is non-empty after
trimming, processing it is observationally identical (same registry, same
socket state, same emitted events) to processing the payload with the code
replaced by lowercase(trim(code)); hence codes differing only in case or
surrounding whitespace address the same room. -/
theorem c8_code_normalization (socket : SocketState) (rm : RoomManager) (data : JoinRoomData)
    (now : Nat) (h : jsTrim data.roomCode ≠ "") :
    handleJoinRoom socket rm data now =
      handleJoinRoom socket rm { data with roomCode := normalizeCode data.roomCode } now := by
  obtain ⟨rc, pid, nm, ih⟩ := data
  simp only at h
  have h1 : rc ≠ "" := ne_empty_of_jsTrim_ne_empty h
  have h2 : normalizeCode rc ≠ "" := normalizeCode_ne_empty h
  show handleJoinRoom socket rm { roomCode := rc, peerId := pid, name := nm, isHost := ih } now
    = handleJoinRoom socket rm
        { roomCode := normalizeCode rc, peerId := pid, name := nm, isHost := ih } now
  simp only [handleJoinRoom, if_neg h1, if_neg h2, normalizeCode_idem]

/-- C8 witness: the code " AB " is handled exactly like its normal form "ab". -/
theorem c8_code_normalization_witness :
    handleJoinRoom socketFresh rmEmpty50 dataW8 0 =
      handleJoinRoom socketFresh rmEmpty50
        { dataW8 with roomCode := normalizeCode dataW8.roomCode } 0 :=
  c8_code_normalization socketFresh rmEmpty50 dataW8 0 (by decide)

/-- C9: leaveRoom is idempotent on the registry — the second of two identical
leave calls changes nothing — and a leave naming an unknown room code or an
unknown connection id mutates nothing and returns room none, wasHost false. -/
theorem c9_leave_idempotent (rm : RoomManager) (code sid : String) (t1 t2 : Nat)
    (hnd : (rm.rooms.map Prod.fst).Nodup)
    (hpnd : ∀ kv ∈ rm.rooms, ((kv.2.participants.map Prod.fst).Nodup)) :
    (leaveRoom (leaveRoom rm code sid t1).1 code sid t2).1 = (leaveRoom rm code sid t1).1 ∧
    (mget rm.rooms code = none →
      leaveRoom rm code sid t1 = (rm, { room := none, wasHost := false, newHostId := none })) ∧
    (∀ room, mget rm.rooms code = some room → mget room.participants sid = none →
      leaveRoom rm code sid t1 =
        (rm, { room := none, wasHost := false, newHostId := none })) := by
  refine ⟨?_, ?_, ?_⟩
  · cases hroom : mget rm.rooms code with
    | none => simp [leaveRoom, hroom]
    | some room =>
      cases hp : mget room.participants sid with
      | none => simp [leaveRoom, hroom, hp]
      | some part =>
        have hpn : (room.participants.map Prod.fst).Nodup :=
          hpnd (code, room) (mget_mem hroom)
        have hdel_none : mget (mdel room.participants sid) sid = none := mget_mdel_self hpn
        have hforall : ∀ kv ∈ mdel room.participants sid, kv.1 ≠ sid :=
          mget_none_forall hdel_none
        have hrooms_del : mget (mdel rm.rooms code) code = none := mget_mdel_self hnd
        cases hwas : part.isHost with
        | true =>
          cases hrem : mdel room.participants sid with
          | nil =>
            simp only [leaveRoom, hroom, hp, hwas, if_true, hrem]
            simp [leaveRoom, hrooms_del]
          | cons hd tl =>
            obtain ⟨k1, q⟩ := hd
            have hnone2 : mget ((k1, { q with isHost := true }) :: tl) sid = none := by
              refine mget_eq_none_of_forall ?_
              intro x hx
              rcases List.mem_cons.mp hx with rfl | hx
              · exact hforall (k1, q) (hrem ▸ List.mem_cons_self _ _)
              · exact hforall x (hrem ▸ List.mem_cons_of_mem _ hx)
            simp only [leaveRoom, hroom, hp, hwas, if_true, hrem]
            simp [leaveRoom, mget_mset_self, hnone2]
        | false =>
          cases hrem : mdel room.participants sid with
          | nil =>
            simp only [leaveRoom, hroom, hp, hwas, Bool.false_eq_true, if_false, hrem]
            simp [leaveRoom, hrooms_del]
          | cons hd tl =>
            have hnone2 : mget (hd :: tl) sid = none := by
              refine mget_eq_none_of_forall ?_
              intro x hx
              exact hforall x (hrem ▸ hx)
            simp only [leaveRoom, hroom, hp, hwas, Bool.false_eq_true, if_false, hrem]
            simp [leaveRoom, mget_mset_self, hnone2]
  · intro h0
    simp [leaveRoom, h0]
  · intro room hroom hp
    simp [leaveRoom, hroom, hp]

/-- C9 witness: the idempotence and no-op clauses instantiated on the concrete
two-member registry. -/
theorem c9_leave_idempotent_witness :
    (leaveRoom (leaveRoom rmC3 "r" "a" 1).1 "r" "a" 2).1 = (leaveRoom rmC3 "r" "a" 1).1 ∧
    (mget rmC3.rooms "r" = none →
      leaveRoom rmC3 "r" "a" 1 = (rmC3, { room := none, wasHost := false, newHostId := none })) ∧
    (∀ room, mget rmC3.rooms "r" = some room → mget room.participants "a" = none →
      leaveRoom rmC3 "r" "a" 1 =
        (rmC3, { room := none, wasHost := false, newHostId := none })) :=
  c9_leave_idempotent rmC3 "r" "a" 1 2 (by decide) (by decide)

/-- C10: a join-room request with isHost = true naming an existing (normalized)
code makes createRoom throw; the handler maps that error to a room-error with
code SERVER_ERROR sent to the sender only, and the registry — hence the
existing room's participants, hostId and code — is unchanged. -/
theorem c10_duplicate_create_server_error (socket : SocketState) (rm : RoomManager)
    (data : JoinRoomData) (now : Nat)
    (hrc : data.roomCode ≠ "")
    (hpid : data.peerId ≠ "")
    (hnm : jsTrim data.name ≠ "")
    (hfree : socket.roomCode = none)
    (hhost : data.isHost = some true)
    (hexists : mhas rm.rooms (normalizeCode data.roomCode) = true) :
    handleJoinRoom socket rm data now =
      { manager := rm, socket := socket,
        events :=
          [Emission.toSender (ServerEvent.roomError "SERVER_ERROR" "Failed to join room")] } := by
  obtain ⟨rc, pid, nm, ih⟩ := data
  simp only at hrc hpid hnm hhost hexists
  subst hhost
  simp only [handleJoinRoom, if_neg hrc, if_neg hpid, if_neg hnm, hfree, Option.getD_some,
    if_true, createRoom, hexists]
  simp only [Except.map]
  rw [if_neg (roomExistsMsg_ne_notFound (normalizeCode rc)),
    if_neg (roomExistsMsg_ne_full (normalizeCode rc))]

/-- C10 witness: creating "ABC " (normalized "abc") while room abc exists
yields exactly the SERVER_ERROR room-error and leaves the registry fixed. -/
theorem c10_duplicate_create_server_error_witness :
    handleJoinRoom socketFresh rmC10 dataW10 5 =
      { manager := rmC10, socket := socketFresh,
        events :=
          [Emission.toSender (ServerEvent.roomError "SERVER_ERROR" "Failed to join room")] } :=
  c10_duplicate_create_server_error socketFresh rmC10 dataW10 5
    (by decide) (by decide) (by decide) rfl rfl (by decide)

end Meet
